import Mathlib

/-!
Shallow embedding of the Zubax ChibiOS bootloader core
(`src/zubax_chibios/bootloader/bootloader.cpp`) and proofs about it.

The storage backend is modelled as the byte content of the application
storage region together with an I/O fault function: a read either returns
exactly the requested bytes (when the range is inside the region and no
fault is injected) or fails, which covers the code's `res != size`
short-read check.

The checksum primitive (`CRC64WE`) is external to the specified core; only
its `add`/`get` interface is assumed, so the development is parametrised
over an arbitrary checksum accumulator.

Machine integers are embedded as `Nat`; storage bytes are `Nat` values
below 256, multi-byte fields are parsed little-endian as on the target.
-/

namespace Bootloader

/-- Application storage backend: the byte content of the region (capacity is
its length) plus an I/O fault model for reads, indexed by request
offset and size. -/
structure Backend where
  data : List Nat
  fails : Nat → Nat → Bool

/-- Extract `len` bytes starting at `off`. -/
def sliceL (bs : List Nat) (off len : Nat) : List Nat :=
  (bs.drop off).take len

/-- Embedding of `IAppStorageBackend::read`: returns exactly `size` bytes on
success (the code only distinguishes `res == size` from everything else),
fails on an injected fault or when the range leaves the region. -/
def Backend.read (b : Backend) (offset size : Nat) : Option (List Nat) :=
  if b.fails offset size then none
  else if offset + size ≤ b.data.length then some (sliceL b.data offset size)
  else none

/-- Abstract incremental checksum primitive: the spec assumes only a
`CRC64WE`-like interface with `add` (here fed one 32-bit word value at a
time, as the code always calls `crc.add(&word, WordSize)`) and `get`. -/
structure Checksum (α : Type) where
  init : α
  add : α → Nat → α
  get : α → Nat

/-- Fields of `AppInfo` (from `bootloader.hpp`, with the layout given by the
spec): image size, image checksum, versions and VCS commit. -/
structure AppInfo where
  image_size : Nat
  image_crc : Nat
  major_version : Nat
  minor_version : Nat
  vcs_commit : Nat
deriving DecidableEq, Repr

/-- The application descriptor: signature bytes followed by `AppInfo`. -/
structure AppDescriptor where
  signature : List Nat
  app_info : AppInfo
deriving DecidableEq, Repr

/-- Modelled from the spec: the fixed 8-byte signature constant
`AppDescriptor::getSignatureValue()` from `bootloader.hpp` (not in `src/`).
The spec fixes its length (the scan reads 8-byte windows) but not its
value; an arbitrary fixed byte sequence is used. -/
def signatureValue : List Nat := [0x41, 0x50, 0x44, 0x65, 0x73, 0x63, 0x30, 0x30]

/-- Modelled from the spec: byte offset of the `image_checksum` field inside
the descriptor, per the binary layout of section 6 of the spec
(8 signature bytes, then a 4-byte image size, then the 8-byte checksum);
this is `offsetof(AppDescriptor, app_info.image_crc)`. -/
def crcFieldOffset : Nat := 12

/-- Modelled from the spec: `sizeof(AppDescriptor)` for the layout of
section 6 of the spec: 8 (signature) + 4 (size) + 8 (checksum) +
1 + 1 (major/minor version) + 4 (vcs commit). -/
def descriptorSize : Nat := 26

/-- Little-endian value of a byte list. -/
def parseLE (bs : List Nat) : Nat :=
  bs.foldr (fun b acc => b + 256 * acc) 0

/-- Reinterpretation of the raw descriptor bytes as an `AppDescriptor`,
following the layout of section 6 of the spec (little-endian target). -/
def parseDescriptor (raw : List Nat) : AppDescriptor :=
  { signature := sliceL raw 0 8
    app_info :=
      { image_size := parseLE (sliceL raw 8 4)
        image_crc := parseLE (sliceL raw 12 8)
        major_version := raw.getD 20 0
        minor_version := raw.getD 21 0
        vcs_commit := parseLE (sliceL raw 22 4) } }

/-- Modelled from the spec: `AppDescriptor::isValid()` from `bootloader.hpp`
(not in `src/`), per the spec's validity invariant: signature matches
exactly and the image size passes sanity bounds (non-zero, a multiple of
the 4-byte checksum word size, and within the region's capacity). -/
def AppDescriptor.isValid (d : AppDescriptor) (capacity : Nat) : Bool :=
  decide (d.signature = signatureValue) &&
  decide (0 < d.app_info.image_size) &&
  decide (d.app_info.image_size % 4 = 0) &&
  decide (d.app_info.image_size ≤ capacity)

/-- The zero-initialised descriptor returned by `locateAppDescriptor` in the
not-found case, `AppDescriptor()`. -/
def defaultDescriptor : AppDescriptor :=
  { signature := List.replicate 8 0
    app_info := { image_size := 0, image_crc := 0, major_version := 0
                  minor_version := 0, vcs_commit := 0 } }

/-- Embedding of the CRC recomputation loop of `locateAppDescriptor`
(bootloader.cpp lines 51-72): iterate `image_size / 4` words; the two
word indices holding the checksum field (computed from the candidate's
offset) contribute a zero word without touching storage; every other
word is read from storage at absolute offset `i * 4`, a failed read
skipping the `crc.add` (`continue`), a successful one feeding the word. -/
def computeImageCrc {α : Type} (C : Checksum α) (b : Backend)
    (offset image_size : Nat) : Nat :=
  let crc_offset_in_words := (offset + crcFieldOffset) / 4
  let image_size_in_words := image_size / 4
  C.get <| (List.range image_size_in_words).foldl (fun crc i =>
    if i ≠ crc_offset_in_words ∧ i ≠ crc_offset_in_words + 1 then
      match b.read (i * 4) 4 with
      | some wbytes => C.add crc (parseLE wbytes)
      | none => crc
    else C.add crc 0) C.init

/-- The storage read requests `(offset, size)` issued by the CRC
recomputation loop: one 4-byte read per non-checksum word index. -/
def crcReadRequests (offset image_size : Nat) : List (Nat × Nat) :=
  let crc_offset_in_words := (offset + crcFieldOffset) / 4
  (List.range (image_size / 4)).filterMap (fun i =>
    if i ≠ crc_offset_in_words ∧ i ≠ crc_offset_in_words + 1 then
      some (i * 4, 4)
    else none)

/-- Outcome of examining one stride offset in the scan loop of
`locateAppDescriptor`: `stop` is the `break` on a short read, `next` is
the `continue` to the next stride, `found` is the successful return. -/
inductive StrideResult
  | stop
  | next
  | found (d : AppDescriptor)
deriving DecidableEq, Repr

/-- Body of one iteration of the scan loop of `locateAppDescriptor`
(bootloader.cpp lines 20-85), with a ghost trace of the storage read
requests it issues: read the 8-byte signature window (short read stops
the scan, mismatch advances the stride); on a match read the whole
descriptor (short read stops the scan); structural invalidity or a CRC
mismatch advances the stride; otherwise the descriptor is found. -/
def strideCheckT {α : Type} (C : Checksum α) (b : Backend)
    (offset : Nat) : StrideResult × List (Nat × Nat) :=
  match b.read offset 8 with
  | none => (.stop, [(offset, 8)])
  | some sig =>
    if sig = signatureValue then
      match b.read offset descriptorSize with
      | none => (.stop, [(offset, 8), (offset, descriptorSize)])
      | some raw =>
        let desc := parseDescriptor raw
        if desc.isValid b.data.length then
          if computeImageCrc C b offset desc.app_info.image_size
              = desc.app_info.image_crc then
            (.found desc,
             [(offset, 8), (offset, descriptorSize)]
               ++ crcReadRequests offset desc.app_info.image_size)
          else
            (.next,
             [(offset, 8), (offset, descriptorSize)]
               ++ crcReadRequests offset desc.app_info.image_size)
        else (.next, [(offset, 8), (offset, descriptorSize)])
    else (.next, [(offset, 8)])

/-- The scan loop of `locateAppDescriptor`, embedded with an explicit
stride budget (`fuel`) so that the definition is structurally recursive;
`locateFuel` below always suffices, because the signature read must fail
before the budget runs out (theorem `locateGo_fuel_irrelevant`). Also
accumulates the ghost trace of issued read requests. -/
def locateGo {α : Type} (C : Checksum α) (b : Backend) :
    Nat → Nat → Option AppDescriptor × List (Nat × Nat)
  | 0, _ => (none, [])
  | fuel + 1, offset =>
    match strideCheckT C b offset with
    | (.stop, reqs) => (none, reqs)
    | (.found d, reqs) => (some d, reqs)
    | (.next, reqs) =>
      let rest := locateGo C b fuel (offset + 8)
      (rest.1, reqs ++ rest.2)

/-- A stride budget that the scan can never exhaust: the signature read at
the first stride offset past `capacity - 8` necessarily fails. -/
def locateFuel (b : Backend) : Nat := b.data.length / 8 + 1

/-- Embedding of `Bootloader::locateAppDescriptor` (result part): returns
the descriptor and a found flag, `AppDescriptor()` and `false` when the
scan exhausts the region. -/
def locateAppDescriptor {α : Type} (C : Checksum α) (b : Backend) :
    AppDescriptor × Bool :=
  match (locateGo C b (locateFuel b) 0).1 with
  | some d => (d, true)
  | none => (defaultDescriptor, false)

/-- Boot states of the bootloader state machine. -/
inductive State
  | NoAppToBoot
  | BootDelay
  | ReadyToBoot
  | BootCancelled
  | AppUpgradeInProgress
deriving DecidableEq, Repr

/-- Mutable fields of the `Bootloader` class relevant to the state machine:
the current state and the system time at which the boot delay started. -/
structure BLState where
  state : State
  boot_delay_started_at_st : Nat
deriving DecidableEq, Repr

/-- Embedding of `Bootloader::verifyAppAndUpdateState`: re-run the locator;
on success enter `BootDelay` restarting the delay timer at the current
system time, otherwise enter `NoAppToBoot`. -/
def verifyAppAndUpdateState {α : Type} (C : Checksum α) (b : Backend)
    (bl : BLState) (now : Nat) : BLState :=
  if (locateAppDescriptor C b).2 then
    { state := State.BootDelay, boot_delay_started_at_st := now }
  else
    { bl with state := State.NoAppToBoot }

/-- Embedding of `Bootloader::getState` (bootloader.cpp lines 119-130):
lazily promotes `BootDelay` to `ReadyToBoot` once the configured delay
has elapsed on the monotonic system clock; `ms2st` is the tick
conversion `MS2ST` and `now - started` embeds
`chVTTimeElapsedSinceX` for a monotonic `now`. Returns the reported
state and the updated fields. -/
def getState (ms2st : Nat → Nat) (boot_delay_msec : Nat) (bl : BLState)
    (now : Nat) : State × BLState :=
  if bl.state = State.BootDelay ∧
      ms2st boot_delay_msec ≤ now - bl.boot_delay_started_at_st then
    (State.ReadyToBoot, { bl with state := State.ReadyToBoot })
  else
    (bl.state, bl)

/-- Embedding of `Bootloader::cancelBoot` (bootloader.cpp lines 139-159). -/
def cancelBoot (bl : BLState) : BLState :=
  match bl.state with
  | State.BootDelay | State.ReadyToBoot =>
    { bl with state := State.BootCancelled }
  | State.NoAppToBoot | State.BootCancelled | State.AppUpgradeInProgress =>
    bl

/-- Embedding of `Bootloader::requestBoot` (bootloader.cpp lines 161-181). -/
def requestBoot (bl : BLState) : BLState :=
  match bl.state with
  | State.BootDelay | State.BootCancelled =>
    { bl with state := State.ReadyToBoot }
  | State.NoAppToBoot | State.AppUpgradeInProgress | State.ReadyToBoot =>
    bl

/-- Modelled from the spec: the `ErrOK` code from `bootloader.hpp`
(not in `src/`), the success return of `upgradeApp`. -/
def ErrOK : Int := 0

/-- Modelled from the spec: the `ErrInvalidState` code from `bootloader.hpp`
(not in `src/`); the code returns its negation on rejection. The spec
fixes no numeric value; an arbitrary positive constant is used. -/
def ErrInvalidState : Int := 1001

/-- Observable backend/state events emitted by one `upgradeApp` call, used
to express invocation counts and the admission transition. -/
inductive UpgradeEvent
  | stateSet (s : State)
  | beganUpgrade
  | endedUpgrade (success : Bool)
deriving DecidableEq, Repr

/-- Behaviour of the external collaborators during one `upgradeApp` call:
the results of `beginUpgrade`, of `downloader.download`, of
`endUpgrade` for each flag, and the storage content left behind by the
download (what the re-run locator sees). -/
structure UpgradeEnv where
  beginRes : Int
  downloadRes : Int
  endRes : Bool → Int
  postStorage : Backend

/-- Embedding of `Bootloader::upgradeApp` (bootloader.cpp lines 183-277):
admission from `BootDelay`/`BootCancelled`/`NoAppToBoot` only, setting
`AppUpgradeInProgress` and beginning the backend transaction (a negative
`beginUpgrade` is returned at once); after the download the state is
pessimistically set to `NoAppToBoot`; a failed download ends the
transaction with the failure flag (its error ignored) and returns the
download error; a failed successful-flag finalization is returned as-is;
otherwise the locator is re-run via `verifyAppAndUpdateState` and `ErrOK`
is returned. Returns the result code, the final state fields and the
event trace. -/
def upgradeApp {α : Type} (C : Checksum α) (env : UpgradeEnv) (bl : BLState)
    (now : Nat) : Int × BLState × List UpgradeEvent :=
  match bl.state with
  | State.ReadyToBoot | State.AppUpgradeInProgress =>
    (-ErrInvalidState, bl, [])
  | State.BootDelay | State.BootCancelled | State.NoAppToBoot =>
    let bl1 : BLState := { bl with state := State.AppUpgradeInProgress }
    let ev1 : List UpgradeEvent :=
      [UpgradeEvent.stateSet State.AppUpgradeInProgress,
       UpgradeEvent.beganUpgrade]
    if env.beginRes < 0 then
      (env.beginRes, bl1, ev1)
    else
      let bl2 : BLState := { bl1 with state := State.NoAppToBoot }
      let ev2 : List UpgradeEvent :=
        ev1 ++ [UpgradeEvent.stateSet State.NoAppToBoot]
      if env.downloadRes < 0 then
        (env.downloadRes, bl2, ev2 ++ [UpgradeEvent.endedUpgrade false])
      else
        let ev3 : List UpgradeEvent :=
          ev2 ++ [UpgradeEvent.endedUpgrade true]
        if env.endRes true < 0 then
          (env.endRes true, bl2, ev3)
        else
          (ErrOK, verifyAppAndUpdateState C env.postStorage bl2 now, ev3)

/-- Whether a stride outcome is the successful return. -/
def StrideResult.isFound : StrideResult → Bool
  | .found _ => true
  | _ => false

/-- Spec-side formulation of the word sequence fed to the checksum during
recomputation: one entry per word of the `image_size / 4`-word image, a
zero for each of the two checksum-field word indices, the stored word for
a successful read, and no entry at all for a failed read. -/
def checksumWordContributions (b : Backend) (offset image_size : Nat) :
    List Nat :=
  let crc_offset_in_words := (offset + crcFieldOffset) / 4
  (List.range (image_size / 4)).filterMap (fun i =>
    if i = crc_offset_in_words ∨ i = crc_offset_in_words + 1 then some 0
    else (b.read (i * 4) 4).map parseLE)

/-- The backend whose region content has bit `j` of byte `p` flipped. -/
def flipBackend (b : Backend) (p j : Nat) : Backend :=
  { data := b.data.set p ((b.data.getD p 0) ^^^ (1 <<< j))
    fails := b.fails }

/-- A concrete checksum instance (the plain sum of the fed words) used for
counterexamples and witnesses; the development itself is parametric in
the checksum primitive. -/
def CsumNat : Checksum Nat := ⟨0, fun a w => a + w, fun a => a⟩

/-- Little-endian byte encoding of `n` on `k` bytes. -/
def leBytes : Nat → Nat → List Nat
  | _, 0 => []
  | n, k + 1 => n % 256 :: leBytes (n / 256) k

/-- Checksum of the 32-byte example image under `CsumNat`: the two signature
words, the size word, a zero pair for the checksum field, and the
version/commit/padding words. -/
def exampleCrc : Nat := 0x65445041 + 0x30306373 + 33

/-- A 32-byte storage region holding one valid descriptor and image at
offset 0: signature, image size 32, the matching checksum, version 1.0,
commit 0 and zero padding. -/
def exampleData : List Nat :=
  signatureValue ++ leBytes 32 4 ++ leBytes exampleCrc 8 ++ [1, 0]
    ++ leBytes 0 4 ++ [0, 0, 0, 0, 0, 0]

/-- Fault-free backend over `exampleData`. -/
def exampleGood : Backend := ⟨exampleData, fun _ _ => false⟩

/-- The same region with a checksum field that does not match the image. -/
def exampleBadCrcData : List Nat :=
  signatureValue ++ leBytes 32 4 ++ leBytes (exampleCrc + 1) 8 ++ [1, 0]
    ++ leBytes 0 4 ++ [0, 0, 0, 0, 0, 0]

/-- Fault-free backend over `exampleBadCrcData`. -/
def exampleBadCrc : Backend := ⟨exampleBadCrcData, fun _ _ => false⟩

/-- The raw descriptor bytes of the candidate at offset 0 of
`exampleBadCrcData`. -/
def exampleBadCrcRaw : List Nat := sliceL exampleBadCrcData 0 descriptorSize

/-- A collaborator behaviour for `upgradeApp` in which every external call
succeeds and the download leaves `exampleData` in storage. -/
def envOk : UpgradeEnv := ⟨0, 0, fun _ => 0, exampleGood⟩

/-- A collaborator behaviour whose download fails with status `-2` while the
storage still holds the valid `exampleData` image. -/
def envDownloadFail : UpgradeEnv := ⟨0, -2, fun _ => 0, exampleGood⟩

theorem read_bound {b : Backend} {off sz : Nat} {l : List Nat}
    (h : b.read off sz = some l) : off + sz ≤ b.data.length := by
  unfold Backend.read at h
  split at h
  · exact absurd h (by simp)
  · split at h
    · assumption
    · exact absurd h (by simp)

theorem read_fails_false {b : Backend} {off sz : Nat} {l : List Nat}
    (h : b.read off sz = some l) : b.fails off sz = false := by
  unfold Backend.read at h
  split at h
  · exact absurd h (by simp)
  · rename_i hcond
    simpa using hcond

theorem read_eq_slice {b : Backend} {off sz : Nat} {l : List Nat}
    (h : b.read off sz = some l) : l = sliceL b.data off sz := by
  unfold Backend.read at h
  split at h
  · exact absurd h (by simp)
  · split at h
    · exact (Option.some.inj h).symm
    · exact absurd h (by simp)

theorem read_some_of {b : Backend} {off sz : Nat}
    (hf : b.fails off sz = false) (hb : off + sz ≤ b.data.length) :
    b.read off sz = some (sliceL b.data off sz) := by
  unfold Backend.read
  rw [hf]
  simp [hb]

theorem read_none_of_past {b : Backend} {off sz : Nat}
    (h : b.data.length < off + sz) : b.read off sz = none := by
  unfold Backend.read
  split
  · rfl
  · rw [if_neg (by omega)]

theorem read_length {b : Backend} {off sz : Nat} {l : List Nat}
    (h : b.read off sz = some l) : l.length = sz := by
  have hb := read_bound h
  rw [read_eq_slice h]
  unfold sliceL
  rw [List.length_take, List.length_drop]
  omega

theorem locateGo_succ {α : Type} (C : Checksum α) (b : Backend)
    (fuel off : Nat) :
    locateGo C b (fuel + 1) off =
      match strideCheckT C b off with
      | (.stop, reqs) => (none, reqs)
      | (.found d, reqs) => (some d, reqs)
      | (.next, reqs) =>
        ((locateGo C b fuel (off + 8)).1,
         reqs ++ (locateGo C b fuel (off + 8)).2) := rfl

theorem locateGo_succ_stop {α : Type} {C : Checksum α} {b : Backend}
    {off : Nat} (h : (strideCheckT C b off).1 = .stop) (fuel : Nat) :
    (locateGo C b (fuel + 1) off).1 = none := by
  rw [locateGo_succ]
  rcases hst : strideCheckT C b off with ⟨r, reqs⟩
  rw [hst] at h
  cases r <;> simp_all

theorem locateGo_succ_next {α : Type} {C : Checksum α} {b : Backend}
    {off : Nat} (h : (strideCheckT C b off).1 = .next) (fuel : Nat) :
    (locateGo C b (fuel + 1) off).1 = (locateGo C b fuel (off + 8)).1 := by
  rw [locateGo_succ]
  rcases hst : strideCheckT C b off with ⟨r, reqs⟩
  rw [hst] at h
  cases r <;> simp_all

theorem locateGo_succ_found {α : Type} {C : Checksum α} {b : Backend}
    {off : Nat} {d : AppDescriptor}
    (h : (strideCheckT C b off).1 = .found d) (fuel : Nat) :
    (locateGo C b (fuel + 1) off).1 = some d := by
  rw [locateGo_succ]
  rcases hst : strideCheckT C b off with ⟨r, reqs⟩
  rw [hst] at h
  cases r <;> simp_all

theorem strideCheckT_stop_of_past {α : Type} {C : Checksum α} {b : Backend}
    {off : Nat} (h : b.data.length < off + 8) :
    strideCheckT C b off = (.stop, [(off, 8)]) := by
  unfold strideCheckT
  rw [read_none_of_past h]

theorem locateGo_none_of_past {α : Type} {C : Checksum α} {b : Backend}
    {off : Nat} (h : b.data.length < off) (fuel : Nat) :
    (locateGo C b fuel off).1 = none := by
  cases fuel with
  | zero => rfl
  | succ fuel =>
    exact locateGo_succ_stop
      (by rw [strideCheckT_stop_of_past (by omega)]) fuel

theorem locateGo_congr_fuel {α : Type} {C : Checksum α} {b : Backend} :
    ∀ fuel₁ fuel₂ off, b.data.length < off + 8 * fuel₁ →
      b.data.length < off + 8 * fuel₂ →
      (locateGo C b fuel₁ off).1 = (locateGo C b fuel₂ off).1 := by
  intro fuel₁
  induction fuel₁ with
  | zero =>
    intro fuel₂ off h₁ h₂
    rw [locateGo_none_of_past (by omega) 0,
        locateGo_none_of_past (by omega) fuel₂]
  | succ fuel₁ ih =>
    intro fuel₂ off h₁ h₂
    cases fuel₂ with
    | zero =>
      rw [locateGo_none_of_past (by omega) (fuel₁ + 1),
          locateGo_none_of_past (by omega) 0]
    | succ fuel₂ =>
      rcases hst : strideCheckT C b off with ⟨r, reqs⟩
      cases r with
      | stop =>
        rw [locateGo_succ_stop (by rw [hst]) fuel₁,
            locateGo_succ_stop (by rw [hst]) fuel₂]
      | found d =>
        rw [locateGo_succ_found (by rw [hst]) fuel₁,
            locateGo_succ_found (by rw [hst]) fuel₂]
      | next =>
        rw [locateGo_succ_next (by rw [hst]) fuel₁,
            locateGo_succ_next (by rw [hst]) fuel₂]
        exact ih fuel₂ (off + 8) (by omega) (by omega)

theorem locateGo_none_of_no_found {α : Type} {C : Checksum α} {b : Backend}
    (h : ∀ m : Nat, ((strideCheckT C b (8 * m)).1).isFound = false) :
    ∀ fuel m, (locateGo C b fuel (8 * m)).1 = none := by
  intro fuel
  induction fuel with
  | zero => intro m; rfl
  | succ fuel ih =>
    intro m
    rcases hst : strideCheckT C b (8 * m) with ⟨r, reqs⟩
    cases r with
    | stop => exact locateGo_succ_stop (by rw [hst]) fuel
    | found d =>
      have := h m
      rw [hst] at this
      simp [StrideResult.isFound] at this
    | next =>
      rw [locateGo_succ_next (by rw [hst]) fuel]
      have : 8 * m + 8 = 8 * (m + 1) := by omega
      rw [this]
      exact ih (m + 1)

theorem strideCheckT_not_found_of_far {α : Type} {C : Checksum α}
    {b : Backend} {off : Nat} (h : b.data.length ≤ 8 * off) :
    ((strideCheckT C b (8 * off)).1).isFound = false := by
  rw [strideCheckT_stop_of_past (by omega)]
  rfl

theorem locate_not_found_of_no_accept {α : Type} {C : Checksum α}
    {b : Backend}
    (h : ∀ m, m < b.data.length →
      ((strideCheckT C b (8 * m)).1).isFound = false) :
    (locateAppDescriptor C b).2 = false := by
  have hall : ∀ m : Nat, ((strideCheckT C b (8 * m)).1).isFound = false := by
    intro m
    by_cases hm : m < b.data.length
    · exact h m hm
    · exact strideCheckT_not_found_of_far (by omega)
  unfold locateAppDescriptor
  have h0 : (0 : Nat) = 8 * 0 := rfl
  rw [h0, locateGo_none_of_no_found hall (locateFuel b) 0]

theorem sliceL_getElem? {l : List Nat} {off n q : Nat} (h : q < n) :
    (sliceL l off n)[q]? = l[off + q]? := by
  unfold sliceL
  rw [List.getElem?_take, if_pos h, List.getElem?_drop]

theorem sliceL_getElem?_none {l : List Nat} {off n q : Nat} (h : n ≤ q) :
    (sliceL l off n)[q]? = none := by
  apply List.getElem?_eq_none
  unfold sliceL
  rw [List.length_take]
  omega

theorem sliceL_getD {l : List Nat} {off n q : Nat} (h : q < n) (d : Nat) :
    (sliceL l off n).getD q d = l.getD (off + q) d := by
  rw [List.getD_eq_getElem?_getD, List.getD_eq_getElem?_getD,
      sliceL_getElem? h]

theorem sliceL_eq_of_take_eq {l l' : List Nat} {size off n : Nat}
    (h : l.take size = l'.take size) (hn : off + n ≤ size) :
    sliceL l off n = sliceL l' off n := by
  apply List.ext_getElem?
  intro q
  by_cases hq : q < n
  · rw [sliceL_getElem? hq, sliceL_getElem? hq]
    have h1 : (l.take size)[off + q]? = (l'.take size)[off + q]? := by rw [h]
    rw [List.getElem?_take, List.getElem?_take, if_pos (by omega),
        if_pos (by omega)] at h1
    exact h1
  · rw [sliceL_getElem?_none (by omega), sliceL_getElem?_none (by omega)]

theorem sliceL_set_outside {l : List Nat} {p v off n : Nat}
    (h : p < off ∨ off + n ≤ p) :
    sliceL (l.set p v) off n = sliceL l off n := by
  apply List.ext_getElem?
  intro q
  by_cases hq : q < n
  · rw [sliceL_getElem? hq, sliceL_getElem? hq,
        List.getElem?_set_ne (by omega)]
  · rw [sliceL_getElem?_none (by omega), sliceL_getElem?_none (by omega)]

theorem sliceL_set_inside {l : List Nat} {p v off n : Nat}
    (hlo : off ≤ p) (hhi : p < off + n) :
    sliceL (l.set p v) off n = (sliceL l off n).set (p - off) v := by
  apply List.ext_getElem?
  intro q
  by_cases hq : q < n
  · by_cases hpq : p - off = q
    · rw [sliceL_getElem? hq, List.getElem?_set, if_pos (by omega),
          List.getElem?_set, if_pos hpq]
      have hlen : (sliceL l off n).length = min n (l.length - off) := by
        unfold sliceL
        rw [List.length_take, List.length_drop]
      by_cases hp : p < l.length
      · rw [if_pos hp, if_pos (by omega)]
      · rw [if_neg hp, if_neg (by omega)]
    · rw [sliceL_getElem? hq, List.getElem?_set_ne (by omega),
          List.getElem?_set_ne hpq, sliceL_getElem? hq]
  · rw [sliceL_getElem?_none (by omega)]
    have : ((sliceL l off n).set (p - off) v)[q]? = none := by
      apply List.getElem?_eq_none
      rw [List.length_set]
      unfold sliceL
      rw [List.length_take]
      omega
    rw [this]

theorem parseLE_cons (x : Nat) (t : List Nat) :
    parseLE (x :: t) = x + 256 * parseLE t := rfl

theorem parseLE_set {l : List Nat} {q v : Nat} (h : q < l.length) :
    parseLE (l.set q v) + 256 ^ q * l.getD q 0
      = parseLE l + 256 ^ q * v := by
  induction l generalizing q with
  | nil => simp at h
  | cons x t ih =>
    cases q with
    | zero =>
      simp only [List.set_cons_zero, List.getD_cons_zero, pow_zero, one_mul,
        parseLE_cons]
      omega
    | succ q =>
      simp only [List.set_cons_succ, List.getD_cons_succ, parseLE_cons]
      have := ih (q := q) (by simpa using h)
      ring_nf
      ring_nf at this
      omega

theorem parseLE_set_ne {l : List Nat} {q v : Nat} (h : q < l.length)
    (hv : v ≠ l.getD q 0) : parseLE (l.set q v) ≠ parseLE l := by
  intro heq
  have := parseLE_set (l := l) (q := q) (v := v) h
  rw [heq] at this
  have hpow : 0 < 256 ^ q := Nat.pos_pow_of_pos q (by omega)
  have : 256 ^ q * l.getD q 0 = 256 ^ q * v := by omega
  exact hv (Nat.eq_of_mul_eq_mul_left hpow this).symm

theorem xor_shiftLeft_ne (x j : Nat) : x ^^^ (1 <<< j) ≠ x := by
  intro h
  have h2 : x ^^^ (x ^^^ (1 <<< j)) = x ^^^ x := by rw [h]
  rw [Nat.xor_cancel_left, Nat.xor_self] at h2
  have : 0 < 1 <<< j := by
    rw [Nat.shiftLeft_eq]
    positivity
  omega

theorem foldl_filterMap_eq {β γ δ : Type} (g : β → Option γ) (f : δ → γ → δ)
    (l : List β) (a : δ) :
    (l.filterMap g).foldl f a
      = l.foldl (fun acc x =>
          match g x with
          | some y => f acc y
          | none => acc) a := by
  induction l generalizing a with
  | nil => rfl
  | cons x t ih =>
    rw [List.filterMap_cons]
    cases hx : g x with
    | none => rw [List.foldl_cons, hx, ih]
    | some y => rw [List.foldl_cons, List.foldl_cons, hx, ih]

theorem computeImageCrc_eq_contributions {α : Type} (C : Checksum α)
    (b : Backend) (off size : Nat) :
    computeImageCrc C b off size
      = C.get (List.foldl C.add C.init (checksumWordContributions b off size)) := by
  simp only [computeImageCrc, checksumWordContributions]
  rw [foldl_filterMap_eq]
  congr 1
  apply List.foldl_ext
  intro a i _
  by_cases hc : i = (off + crcFieldOffset) / 4
      ∨ i = (off + crcFieldOffset) / 4 + 1
  · rw [if_neg (by tauto), if_pos hc]
  · rw [if_pos (by tauto), if_neg hc]
    cases hr : b.read (i * 4) 4 with
    | none => rfl
    | some w => rfl

theorem strideCheckT_fst_next_of_crc_mismatch {α : Type} {C : Checksum α}
    {b : Backend} {off : Nat} {raw : List Nat}
    (hsig : b.read off 8 = some signatureValue)
    (hraw : b.read off descriptorSize = some raw)
    (hval : (parseDescriptor raw).isValid b.data.length = true)
    (hcrc : computeImageCrc C b off (parseDescriptor raw).app_info.image_size
      ≠ (parseDescriptor raw).app_info.image_crc) :
    (strideCheckT C b off).1 = .next := by
  simp [strideCheckT, hsig, hraw, hval, hcrc]

theorem strideCheckT_isFound_false_of_no_match {α : Type} {C : Checksum α}
    {b : Backend} {off : Nat}
    (h : ∀ raw, b.read off descriptorSize = some raw →
      (parseDescriptor raw).isValid b.data.length = true →
      computeImageCrc C b off (parseDescriptor raw).app_info.image_size
        ≠ (parseDescriptor raw).app_info.image_crc) :
    ((strideCheckT C b off).1).isFound = false := by
  cases h8 : b.read off 8 with
  | none => simp [strideCheckT, h8, StrideResult.isFound]
  | some sig =>
    by_cases hs : sig = signatureValue
    · cases hd : b.read off descriptorSize with
      | none => simp [strideCheckT, h8, hd, hs, StrideResult.isFound]
      | some raw =>
        by_cases hv : (parseDescriptor raw).isValid b.data.length = true
        · simp [strideCheckT, h8, hd, hs, hv, h raw hd hv,
            StrideResult.isFound]
        · simp [strideCheckT, h8, hd, hs, hv, StrideResult.isFound]
    · simp [strideCheckT, h8, hs, StrideResult.isFound]

theorem strideCheckT_isFound_false_of_sig {α : Type} {C : Checksum α}
    {b : Backend} {off : Nat}
    (h : b.read off 8 ≠ some signatureValue) :
    ((strideCheckT C b off).1).isFound = false := by
  cases h8 : b.read off 8 with
  | none => simp [strideCheckT, h8, StrideResult.isFound]
  | some sig =>
    have hs : sig ≠ signatureValue := by
      intro hs
      exact h (by rw [h8, hs])
    simp [strideCheckT, h8, hs, StrideResult.isFound]

theorem computeImageCrc_congr_reads {α : Type} (C : Checksum α)
    {b b' : Backend} (off size : Nat)
    (h : ∀ i, i < size / 4 → i ≠ (off + crcFieldOffset) / 4 →
      i ≠ (off + crcFieldOffset) / 4 + 1 →
      b.read (i * 4) 4 = b'.read (i * 4) 4) :
    computeImageCrc C b off size = computeImageCrc C b' off size := by
  simp only [computeImageCrc]
  congr 1
  apply List.foldl_ext
  intro a i hi
  rw [List.mem_range] at hi
  by_cases hc : i ≠ (off + crcFieldOffset) / 4
      ∧ i ≠ (off + crcFieldOffset) / 4 + 1
  · rw [if_pos hc, if_pos hc, h i hi hc.1 hc.2]
  · rw [if_neg hc, if_neg hc]

theorem computeImageCrc_prefix_only {α : Type} (C : Checksum α)
    {b b' : Backend} (off size : Nat)
    (hl : size ≤ b.data.length) (hl' : size ≤ b'.data.length)
    (ht : b.data.take size = b'.data.take size)
    (hf : ∀ o, o + 4 ≤ size → b.fails o 4 = b'.fails o 4) :
    computeImageCrc C b off size = computeImageCrc C b' off size := by
  apply computeImageCrc_congr_reads
  intro i hi _ _
  have hb : i * 4 + 4 ≤ size := by omega
  cases hfb : b'.fails (i * 4) 4 with
  | false =>
    rw [read_some_of (by rw [hf _ hb]; exact hfb) (by omega),
        read_some_of hfb (by omega), sliceL_eq_of_take_eq ht hb]
  | true =>
    unfold Backend.read
    rw [hf _ hb, hfb]
    simp

theorem isValid_congr {d d' : AppDescriptor} (hs : d.signature = d'.signature)
    (hsz : d.app_info.image_size = d'.app_info.image_size) (cap : Nat) :
    d.isValid cap = d'.isValid cap := by
  unfold AppDescriptor.isValid
  rw [hs, hsz]

theorem flip_read_outside {b : Backend} {p off n : Nat} (j : Nat)
    (h : p < off ∨ off + n ≤ p) :
    (flipBackend b p j).read off n = b.read off n := by
  unfold flipBackend Backend.read
  simp only [List.length_set]
  rw [sliceL_set_outside h]

theorem flip_read_inside {b : Backend} {p off n : Nat} (j : Nat)
    (hf : b.fails off n = false) (hb : off + n ≤ b.data.length)
    (hlo : off ≤ p) (hhi : p < off + n) :
    (flipBackend b p j).read off n
      = some ((sliceL b.data off n).set (p - off)
          ((b.data.getD p 0) ^^^ (1 <<< j))) := by
  unfold flipBackend Backend.read
  simp only [List.length_set, hf, Bool.false_eq_true, if_false, if_pos hb]
  rw [sliceL_set_inside hlo hhi]

theorem parseDescriptor_set_crcField {raw : List Nat} {q v : Nat}
    (hlo : 12 ≤ q) (hhi : q < 20) :
    parseDescriptor (raw.set q v)
      = { signature := sliceL raw 0 8
          app_info :=
            { image_size := parseLE (sliceL raw 8 4)
              image_crc := parseLE ((sliceL raw 12 8).set (q - 12) v)
              major_version := raw.getD 20 0
              minor_version := raw.getD 21 0
              vcs_commit := parseLE (sliceL raw 22 4) } } := by
  unfold parseDescriptor
  rw [sliceL_set_outside (Or.inr (by omega)),
      sliceL_set_outside (Or.inr (by omega)),
      sliceL_set_inside hlo (by omega),
      sliceL_set_outside (Or.inl (by omega)),
      List.getD_eq_getElem?_getD, List.getElem?_set_ne (by omega),
      ← List.getD_eq_getElem?_getD,
      List.getD_eq_getElem?_getD (n := 21), List.getElem?_set_ne (by omega),
      ← List.getD_eq_getElem?_getD]

theorem isValid_size_le {d : AppDescriptor} {cap : Nat}
    (h : d.isValid cap = true) : d.app_info.image_size ≤ cap := by
  unfold AppDescriptor.isValid at h
  simp only [Bool.and_eq_true, decide_eq_true_eq] at h
  exact h.2

theorem crcReadRequests_mem {off size : Nat} {r : Nat × Nat}
    (hr : r ∈ crcReadRequests off size) : r.2 = 4 ∧ r.1 + r.2 ≤ size := by
  simp only [crcReadRequests, List.mem_filterMap, List.mem_range] at hr
  rcases hr with ⟨i, hi, hif⟩
  by_cases hc : i ≠ (off + crcFieldOffset) / 4
      ∧ i ≠ (off + crcFieldOffset) / 4 + 1
  · rw [if_pos hc] at hif
    rcases Option.some.inj hif with h
    rw [← h]
    exact ⟨rfl, by omega⟩
  · rw [if_neg hc] at hif
    exact absurd hif (by simp)

theorem stride_next_bound {α : Type} {C : Checksum α} {b : Backend}
    {off : Nat} (h : (strideCheckT C b off).1 = .next) :
    off + 8 ≤ b.data.length := by
  cases h8 : b.read off 8 with
  | none =>
    rw [show strideCheckT C b off = (.stop, [(off, 8)]) by
      unfold strideCheckT; rw [h8]] at h
    exact absurd h (by simp)
  | some sig => exact read_bound h8

theorem strideCheckT_reqs_bounded {α : Type} {C : Checksum α} {b : Backend}
    {off : Nat} (hoff : off ≤ b.data.length) :
    ∀ r ∈ (strideCheckT C b off).2, r.1 ≤ b.data.length := by
  cases h8 : b.read off 8 with
  | none =>
    simp only [strideCheckT, h8, List.mem_singleton]
    intro r hr
    rw [hr]
    exact hoff
  | some sig =>
    by_cases hs : sig = signatureValue
    · cases hd : b.read off descriptorSize with
      | none =>
        simp only [strideCheckT, h8, hs, if_true, hd, List.mem_cons,
          List.mem_singleton, List.not_mem_nil, or_false]
        intro r hr
        rcases hr with h | h <;> rw [h] <;> exact hoff
      | some raw =>
        by_cases hv : (parseDescriptor raw).isValid b.data.length = true
        · have hsz := isValid_size_le hv
          have hmain : ∀ r ∈ [(off, 8), (off, descriptorSize)]
              ++ crcReadRequests off
                  (parseDescriptor raw).app_info.image_size,
              r.1 ≤ b.data.length := by
            intro r hr
            rcases List.mem_append.mp hr with h | h
            · simp only [List.mem_cons, List.mem_singleton,
                List.not_mem_nil, or_false] at h
              rcases h with h | h <;> rw [h] <;> exact hoff
            · have := crcReadRequests_mem h
              omega
          by_cases hcrc : computeImageCrc C b off
              (parseDescriptor raw).app_info.image_size
            = (parseDescriptor raw).app_info.image_crc
          · simpa only [strideCheckT, h8, hs, if_true, hd, hv,
              hcrc] using hmain
          · simpa only [strideCheckT, h8, hs, if_true, hd, hv,
              if_neg hcrc] using hmain
        · simp only [strideCheckT, h8, hs, if_true, hd, hv,
            Bool.false_eq_true, if_false, List.mem_cons,
            List.mem_singleton, List.not_mem_nil, or_false]
          intro r hr
          rcases hr with h | h <;> rw [h] <;> exact hoff
    · simp only [strideCheckT, h8, hs, if_false, List.mem_singleton]
      intro r hr
      rw [hr]
      exact hoff

theorem locateGo_reads_bounded {α : Type} {C : Checksum α} {b : Backend} :
    ∀ fuel off, off ≤ b.data.length →
      ∀ r ∈ (locateGo C b fuel off).2, r.1 ≤ b.data.length := by
  intro fuel
  induction fuel with
  | zero =>
    intro off _ r hr
    simp [locateGo] at hr
  | succ fuel ih =>
    intro off hoff r hr
    rw [locateGo_succ] at hr
    rcases hst : strideCheckT C b off with ⟨res, reqs⟩
    rw [hst] at hr
    have hreq : ∀ r ∈ reqs, r.1 ≤ b.data.length := by
      have h := strideCheckT_reqs_bounded (C := C) hoff
      rw [hst] at h
      exact h
    cases res with
    | stop => exact hreq r hr
    | found d => exact hreq r hr
    | next =>
      have hb8 : off + 8 ≤ b.data.length := by
        apply stride_next_bound (C := C)
        rw [hst]
      rcases List.mem_append.mp hr with h | h
      · exact hreq r h
      · exact ih (off + 8) (by omega) r h

theorem strideCheckT_stop_of_sig_short {α : Type} {C : Checksum α}
    {b : Backend} {off : Nat} (h8 : b.read off 8 = none) :
    (strideCheckT C b off).1 = .stop := by
  simp [strideCheckT, h8]

theorem strideCheckT_stop_of_desc_short {α : Type} {C : Checksum α}
    {b : Backend} {off : Nat} (h8 : b.read off 8 = some signatureValue)
    (hd : b.read off descriptorSize = none) :
    (strideCheckT C b off).1 = .stop := by
  simp [strideCheckT, h8, hd]

theorem strideCheckT_fst_next_of_invalid {α : Type} {C : Checksum α}
    {b : Backend} {off : Nat} {raw : List Nat}
    (hsig : b.read off 8 = some signatureValue)
    (hraw : b.read off descriptorSize = some raw)
    (hval : (parseDescriptor raw).isValid b.data.length = false) :
    (strideCheckT C b off).1 = .next := by
  simp [strideCheckT, hsig, hraw, hval]

/-- C9: `cancelBoot` invoked in `BootDelay` or `ReadyToBoot` always yields
`BootCancelled` and invoked in `NoAppToBoot`, `BootCancelled` or
`AppUpgradeInProgress` leaves the state unchanged; `requestBoot` invoked
in `BootDelay` or `BootCancelled` yields `ReadyToBoot` immediately (the
embedding takes no clock input, so the transition cannot depend on the
boot delay having elapsed) and invoked in any other state leaves the
state unchanged. -/
theorem c9_cancel_request_transitions (bl : BLState) :
    ((bl.state = State.BootDelay ∨ bl.state = State.ReadyToBoot) →
       cancelBoot bl = { bl with state := State.BootCancelled }) ∧
    ((bl.state = State.NoAppToBoot ∨ bl.state = State.BootCancelled ∨
        bl.state = State.AppUpgradeInProgress) → cancelBoot bl = bl) ∧
    ((bl.state = State.BootDelay ∨ bl.state = State.BootCancelled) →
       requestBoot bl = { bl with state := State.ReadyToBoot }) ∧
    ((bl.state = State.NoAppToBoot ∨ bl.state = State.ReadyToBoot ∨
        bl.state = State.AppUpgradeInProgress) → requestBoot bl = bl) := by
  rcases bl with ⟨s, t⟩
  cases s <;> simp [cancelBoot, requestBoot]

/-- Witness for C9 at concrete states. -/
theorem c9_cancel_request_transitions_witness :
    cancelBoot ⟨State.BootDelay, 17⟩ = ⟨State.BootCancelled, 17⟩ ∧
    requestBoot ⟨State.BootCancelled, 3⟩ = ⟨State.ReadyToBoot, 3⟩ ∧
    cancelBoot ⟨State.AppUpgradeInProgress, 5⟩
      = ⟨State.AppUpgradeInProgress, 5⟩ :=
  ⟨(c9_cancel_request_transitions ⟨State.BootDelay, 17⟩).1 (Or.inl rfl),
   (c9_cancel_request_transitions ⟨State.BootCancelled, 3⟩).2.2.1
     (Or.inr rfl),
   (c9_cancel_request_transitions ⟨State.AppUpgradeInProgress, 5⟩).2.1
     (Or.inr (Or.inr rfl))⟩

/-- C8: `getState` leaves `BootDelay` untouched strictly before the
configured delay has elapsed on the monotonic clock, promotes it to
`ReadyToBoot` on the first query at or after expiry, and afterwards
keeps returning `ReadyToBoot` unchanged for every later query; in the
embedding the transition can only happen inside `getState` itself (no
other definition writes `ReadyToBoot` from `BootDelay` except
`requestBoot`, and there is no timer process). -/
theorem c8_boot_delay_lazy_expiry (ms2st : Nat → Nat) (delay : Nat)
    (bl : BLState) (now now2 : Nat) :
    (bl.state = State.BootDelay →
       now - bl.boot_delay_started_at_st < ms2st delay →
       getState ms2st delay bl now = (State.BootDelay, bl)) ∧
    (bl.state = State.BootDelay →
       ms2st delay ≤ now - bl.boot_delay_started_at_st →
       getState ms2st delay bl now
         = (State.ReadyToBoot, { bl with state := State.ReadyToBoot })) ∧
    (bl.state = State.ReadyToBoot →
       getState ms2st delay bl now2 = (State.ReadyToBoot, bl)) := by
  refine ⟨?_, ?_, ?_⟩
  · intro h1 h2
    have hn : ¬(bl.state = State.BootDelay ∧
        ms2st delay ≤ now - bl.boot_delay_started_at_st) := by
      intro hc
      omega
    rw [getState, if_neg hn, h1]
  · intro h1 h2
    rw [getState, if_pos ⟨h1, h2⟩]
  · intro h1
    have hn : ¬(bl.state = State.BootDelay ∧
        ms2st delay ≤ now2 - bl.boot_delay_started_at_st) := by
      intro hc
      rw [h1] at hc
      exact absurd hc.1 (by simp)
    rw [getState, if_neg hn, h1]

/-- Witness for C8: with a one-tick-per-millisecond clock and a 100 ms
delay started at time 10, a query at 109 stays in `BootDelay`, a query
at 110 yields `ReadyToBoot`, and a later query keeps `ReadyToBoot`. -/
theorem c8_boot_delay_lazy_expiry_witness :
    getState (fun ms => ms) 100 ⟨State.BootDelay, 10⟩ 109
      = (State.BootDelay, ⟨State.BootDelay, 10⟩) ∧
    getState (fun ms => ms) 100 ⟨State.BootDelay, 10⟩ 110
      = (State.ReadyToBoot, ⟨State.ReadyToBoot, 10⟩) ∧
    getState (fun ms => ms) 100 ⟨State.ReadyToBoot, 10⟩ 500
      = (State.ReadyToBoot, ⟨State.ReadyToBoot, 10⟩) :=
  ⟨(c8_boot_delay_lazy_expiry (fun ms => ms) 100 ⟨State.BootDelay, 10⟩
      109 0).1 rfl (by decide),
   (c8_boot_delay_lazy_expiry (fun ms => ms) 100 ⟨State.BootDelay, 10⟩
      110 0).2.1 rfl (by decide),
   (c8_boot_delay_lazy_expiry (fun ms => ms) 100 ⟨State.ReadyToBoot, 10⟩
      0 500).2.2 rfl⟩

/-- C3: `upgradeApp` is rejected exactly from `ReadyToBoot` and
`AppUpgradeInProgress`; the rejection returns `-ErrInvalidState` and has
no side effects (state unchanged, no backend events); from the three
admitted states the first emitted event is the transition to
`AppUpgradeInProgress`. -/
theorem upgradeApp_admitted_events {α : Type} (C : Checksum α)
    (env : UpgradeEnv) (s : State) (t now : Nat)
    (hadm : s = State.BootDelay ∨ s = State.BootCancelled ∨
      s = State.NoAppToBoot) :
    (upgradeApp C env ⟨s, t⟩ now).2.2.head?
      = some (UpgradeEvent.stateSet State.AppUpgradeInProgress) ∧
    (upgradeApp C env ⟨s, t⟩ now).2.2 ≠ [] := by
  rcases hadm with h | h | h <;> subst h <;>
    simp only [upgradeApp] <;>
    by_cases h1 : env.beginRes < 0 <;>
    by_cases h2 : env.downloadRes < 0 <;>
    by_cases h3 : env.endRes true < 0 <;>
    simp [h1, h2, h3]

theorem c3_upgrade_admission {α : Type} (C : Checksum α) (env : UpgradeEnv)
    (bl : BLState) (now : Nat) :
    ((bl.state = State.ReadyToBoot ∨ bl.state = State.AppUpgradeInProgress) →
       upgradeApp C env bl now = (-ErrInvalidState, bl, [])) ∧
    ((upgradeApp C env bl now).2.2 = [] ↔
       (bl.state = State.ReadyToBoot ∨
        bl.state = State.AppUpgradeInProgress)) ∧
    ((bl.state = State.BootDelay ∨ bl.state = State.BootCancelled ∨
        bl.state = State.NoAppToBoot) →
       (upgradeApp C env bl now).2.2.head?
         = some (UpgradeEvent.stateSet State.AppUpgradeInProgress)) := by
  rcases bl with ⟨s, t⟩
  refine ⟨?_, ?_, ?_⟩
  · intro h
    have h' : s = State.ReadyToBoot ∨ s = State.AppUpgradeInProgress := h
    rcases h' with h' | h' <;> subst h' <;> rfl
  · cases s with
    | ReadyToBoot => simp [upgradeApp]
    | AppUpgradeInProgress => simp [upgradeApp]
    | BootDelay =>
      have hne := (upgradeApp_admitted_events C env State.BootDelay t now
        (Or.inl rfl)).2
      simp [hne]
    | BootCancelled =>
      have hne := (upgradeApp_admitted_events C env State.BootCancelled t now
        (Or.inr (Or.inl rfl))).2
      simp [hne]
    | NoAppToBoot =>
      have hne := (upgradeApp_admitted_events C env State.NoAppToBoot t now
        (Or.inr (Or.inr rfl))).2
      simp [hne]
  · intro h
    exact (upgradeApp_admitted_events C env s t now h).1

/-- Witness for C3 at concrete states. -/
theorem c3_upgrade_admission_witness :
    upgradeApp CsumNat envOk ⟨State.ReadyToBoot, 4⟩ 9
      = (-ErrInvalidState, ⟨State.ReadyToBoot, 4⟩, []) ∧
    (upgradeApp CsumNat envOk ⟨State.BootCancelled, 4⟩ 9).2.2.head?
      = some (UpgradeEvent.stateSet State.AppUpgradeInProgress) :=
  ⟨(c3_upgrade_admission CsumNat envOk ⟨State.ReadyToBoot, 4⟩ 9).1
     (Or.inl rfl),
   (c3_upgrade_admission CsumNat envOk ⟨State.BootCancelled, 4⟩ 9).2.2
     (Or.inr (Or.inl rfl))⟩

/-- C6: from an admitted state, when `beginUpgrade` reports a negative
result, `upgradeApp` returns that result immediately, the state remains
`AppUpgradeInProgress` (no rollback), and `endUpgrade` is never
invoked on this path. -/
theorem c6_begin_upgrade_failure {α : Type} (C : Checksum α)
    (env : UpgradeEnv) (bl : BLState) (now : Nat)
    (hadm : bl.state = State.BootDelay ∨ bl.state = State.BootCancelled ∨
      bl.state = State.NoAppToBoot)
    (hbeg : env.beginRes < 0) :
    upgradeApp C env bl now
      = (env.beginRes, { bl with state := State.AppUpgradeInProgress },
         [UpgradeEvent.stateSet State.AppUpgradeInProgress,
          UpgradeEvent.beganUpgrade]) ∧
    (∀ s, UpgradeEvent.endedUpgrade s ∉ (upgradeApp C env bl now).2.2) := by
  rcases bl with ⟨s, t⟩
  have hadm' : s = State.BootDelay ∨ s = State.BootCancelled ∨
      s = State.NoAppToBoot := hadm
  have hmain : upgradeApp C env ⟨s, t⟩ now
      = (env.beginRes, ⟨State.AppUpgradeInProgress, t⟩,
         [UpgradeEvent.stateSet State.AppUpgradeInProgress,
          UpgradeEvent.beganUpgrade]) := by
    rcases hadm' with h | h | h <;> subst h <;> simp [upgradeApp, hbeg]
  refine ⟨hmain, ?_⟩
  rw [hmain]
  intro s'
  simp

/-- Witness for C6 with a failing `beginUpgrade`. -/
theorem c6_begin_upgrade_failure_witness :
    upgradeApp CsumNat ⟨-7, 0, fun _ => 0, exampleGood⟩
        ⟨State.NoAppToBoot, 2⟩ 11
      = (-7, ⟨State.AppUpgradeInProgress, 2⟩,
         [UpgradeEvent.stateSet State.AppUpgradeInProgress,
          UpgradeEvent.beganUpgrade]) :=
  (c6_begin_upgrade_failure CsumNat ⟨-7, 0, fun _ => 0, exampleGood⟩
    ⟨State.NoAppToBoot, 2⟩ 11 (Or.inr (Or.inr rfl)) (by decide)).1

/-- C4 counterexample: an admitted upgrade from `BootCancelled` whose
download fails with `-2` while the storage still holds the intact, valid
`exampleData` image ends in state `NoAppToBoot`, not `BootDelay`,
although the pre-existing image region is independently valid — the
failure path never re-runs the locator. -/
theorem c4_counterexample :
    (upgradeApp CsumNat envDownloadFail ⟨State.BootCancelled, 5⟩ 7).2.1.state
      = State.NoAppToBoot ∧
    (locateAppDescriptor CsumNat envDownloadFail.postStorage).2 = true := by
  constructor
  · rfl
  · decide

/-- C4 (amended): for every admitted `upgradeApp` call whose transfer fails,
`endUpgrade(false)` is invoked exactly once, any error of that cleanup
call is ignored (the behaviour does not depend on `endRes` at all, since
`env` is arbitrary), the original transfer error is returned, and the
final state is `NoAppToBoot` unconditionally — the failure path never
re-validates a pre-existing image. -/
theorem c4_download_failure_finalization {α : Type} (C : Checksum α)
    (env : UpgradeEnv) (bl : BLState) (now : Nat)
    (hadm : bl.state = State.BootDelay ∨ bl.state = State.BootCancelled ∨
      bl.state = State.NoAppToBoot)
    (hbeg : 0 ≤ env.beginRes) (hdl : env.downloadRes < 0) :
    upgradeApp C env bl now
      = (env.downloadRes, ⟨State.NoAppToBoot, bl.boot_delay_started_at_st⟩,
         [UpgradeEvent.stateSet State.AppUpgradeInProgress,
          UpgradeEvent.beganUpgrade,
          UpgradeEvent.stateSet State.NoAppToBoot,
          UpgradeEvent.endedUpgrade false]) ∧
    (upgradeApp C env bl now).2.2.count (UpgradeEvent.endedUpgrade false)
      = 1 := by
  rcases bl with ⟨s, t⟩
  have hadm' : s = State.BootDelay ∨ s = State.BootCancelled ∨
      s = State.NoAppToBoot := hadm
  have hnb : ¬env.beginRes < 0 := by omega
  have hmain : upgradeApp C env ⟨s, t⟩ now
      = (env.downloadRes, ⟨State.NoAppToBoot, t⟩,
         [UpgradeEvent.stateSet State.AppUpgradeInProgress,
          UpgradeEvent.beganUpgrade,
          UpgradeEvent.stateSet State.NoAppToBoot,
          UpgradeEvent.endedUpgrade false]) := by
    rcases hadm' with h | h | h <;> subst h <;>
      simp [upgradeApp, hnb, hdl]
  refine ⟨hmain, ?_⟩
  rw [hmain]
  rfl

/-- Witness for the amended C4 at a concrete admitted state and failing
download. -/
theorem c4_download_failure_finalization_witness :
    upgradeApp CsumNat envDownloadFail ⟨State.BootDelay, 5⟩ 7
      = (-2, ⟨State.NoAppToBoot, 5⟩,
         [UpgradeEvent.stateSet State.AppUpgradeInProgress,
          UpgradeEvent.beganUpgrade,
          UpgradeEvent.stateSet State.NoAppToBoot,
          UpgradeEvent.endedUpgrade false]) :=
  (c4_download_failure_finalization CsumNat envDownloadFail
    ⟨State.BootDelay, 5⟩ 7 (Or.inl rfl) (by decide) (by decide)).1

/-- C5: for every admitted `upgradeApp` call whose transfer succeeds,
`endUpgrade(true)` is invoked exactly once; if it fails its error is
returned as-is and the state stays `NoAppToBoot` without re-running the
locator; only if it succeeds is the locator re-run on the post-transfer
storage, the state becoming `BootDelay` exactly when a valid image is
present and `NoAppToBoot` otherwise, while the call returns `ErrOK`
regardless of the new image's validity. -/
theorem c5_success_finalization {α : Type} (C : Checksum α)
    (env : UpgradeEnv) (bl : BLState) (now : Nat)
    (hadm : bl.state = State.BootDelay ∨ bl.state = State.BootCancelled ∨
      bl.state = State.NoAppToBoot)
    (hbeg : 0 ≤ env.beginRes) (hdl : 0 ≤ env.downloadRes) :
    ((upgradeApp C env bl now).2.2
       = [UpgradeEvent.stateSet State.AppUpgradeInProgress,
          UpgradeEvent.beganUpgrade,
          UpgradeEvent.stateSet State.NoAppToBoot,
          UpgradeEvent.endedUpgrade true]) ∧
    ((upgradeApp C env bl now).2.2.count (UpgradeEvent.endedUpgrade true)
       = 1) ∧
    (env.endRes true < 0 →
       upgradeApp C env bl now
         = (env.endRes true,
            ⟨State.NoAppToBoot, bl.boot_delay_started_at_st⟩,
            [UpgradeEvent.stateSet State.AppUpgradeInProgress,
             UpgradeEvent.beganUpgrade,
             UpgradeEvent.stateSet State.NoAppToBoot,
             UpgradeEvent.endedUpgrade true])) ∧
    (0 ≤ env.endRes true →
       (upgradeApp C env bl now).1 = ErrOK ∧
       ((locateAppDescriptor C env.postStorage).2 = true →
          (upgradeApp C env bl now).2.1 = ⟨State.BootDelay, now⟩) ∧
       ((locateAppDescriptor C env.postStorage).2 = false →
          (upgradeApp C env bl now).2.1
            = ⟨State.NoAppToBoot, bl.boot_delay_started_at_st⟩)) := by
  rcases bl with ⟨s, t⟩
  have hadm' : s = State.BootDelay ∨ s = State.BootCancelled ∨
      s = State.NoAppToBoot := hadm
  have hnb : ¬env.beginRes < 0 := by omega
  have hnd : ¬env.downloadRes < 0 := by omega
  by_cases hend : env.endRes true < 0
  · have hmain : upgradeApp C env ⟨s, t⟩ now
        = (env.endRes true, ⟨State.NoAppToBoot, t⟩,
           [UpgradeEvent.stateSet State.AppUpgradeInProgress,
            UpgradeEvent.beganUpgrade,
            UpgradeEvent.stateSet State.NoAppToBoot,
            UpgradeEvent.endedUpgrade true]) := by
      rcases hadm' with h | h | h <;> subst h <;>
        simp [upgradeApp, hnb, hnd, hend]
    rw [hmain]
    refine ⟨rfl, by rfl, fun _ => rfl, fun hge => absurd hend (by omega)⟩
  · have hmain : upgradeApp C env ⟨s, t⟩ now
        = (ErrOK,
           verifyAppAndUpdateState C env.postStorage
             ⟨State.NoAppToBoot, t⟩ now,
           [UpgradeEvent.stateSet State.AppUpgradeInProgress,
            UpgradeEvent.beganUpgrade,
            UpgradeEvent.stateSet State.NoAppToBoot,
            UpgradeEvent.endedUpgrade true]) := by
      rcases hadm' with h | h | h <;> subst h <;>
        simp [upgradeApp, hnb, hnd, hend]
    rw [hmain]
    refine ⟨rfl, by rfl, fun hlt => absurd hlt hend, fun _ => ⟨rfl, ?_, ?_⟩⟩
    · intro hfound
      simp [verifyAppAndUpdateState, hfound]
    · intro hnotfound
      simp [verifyAppAndUpdateState, hnotfound]

/-- Witness for C5: a fully successful upgrade over a region that then
holds the valid example image ends in `BootDelay` with the timer
restarted at the query time, returning `ErrOK`. -/
theorem c5_success_finalization_witness :
    (upgradeApp CsumNat envOk ⟨State.NoAppToBoot, 5⟩ 42).1 = ErrOK ∧
    (upgradeApp CsumNat envOk ⟨State.NoAppToBoot, 5⟩ 42).2.1
      = ⟨State.BootDelay, 42⟩ := by
  have h := c5_success_finalization CsumNat envOk ⟨State.NoAppToBoot, 5⟩ 42
    (Or.inr (Or.inr rfl)) (by decide) (by decide)
  exact ⟨(h.2.2.2 (by decide)).1, (h.2.2.2 (by decide)).2.1 (by decide)⟩

/-- C1: the checksum recomputation iterates the image as `image_size / 4`
words, feeding a zero word for the two word indices holding the
checksum field, feeding the stored word for every other successfully
read word, and contributing nothing at all for a word whose read fails
(captured by `checksumWordContributions`, where a failed read produces
no list entry); and for a structurally valid candidate whose recomputed
checksum differs from the stored `image_checksum`, the stride is a
false positive and the scan continues at the next stride. -/
theorem c1_checksum_recomputation {α : Type} (C : Checksum α) (b : Backend)
    (off : Nat) :
    (∀ image_size, computeImageCrc C b off image_size
       = C.get (List.foldl C.add C.init
           (checksumWordContributions b off image_size))) ∧
    (∀ raw, b.read off 8 = some signatureValue →
       b.read off descriptorSize = some raw →
       (parseDescriptor raw).isValid b.data.length = true →
       computeImageCrc C b off (parseDescriptor raw).app_info.image_size
         ≠ (parseDescriptor raw).app_info.image_crc →
       (strideCheckT C b off).1 = .next ∧
         ∀ fuel, (locateGo C b (fuel + 1) off).1
           = (locateGo C b fuel (off + 8)).1) := by
  constructor
  · intro image_size
    exact computeImageCrc_eq_contributions C b off image_size
  · intro raw hsig hraw hval hcrc
    have hn := strideCheckT_fst_next_of_crc_mismatch hsig hraw hval hcrc
    exact ⟨hn, fun fuel => locateGo_succ_next hn fuel⟩

/-- Witness for C1: the example region whose stored checksum is off by one
is recognised as a false positive and the scan moves to the next
stride. -/
theorem c1_checksum_recomputation_witness :
    (strideCheckT CsumNat exampleBadCrc 0).1 = .next ∧
    (locateGo CsumNat exampleBadCrc 4 0).1
      = (locateGo CsumNat exampleBadCrc 3 8).1 := by
  have h := (c1_checksum_recomputation CsumNat exampleBadCrc 0).2
    exampleBadCrcRaw (by decide) (by decide) (by decide) (by decide)
  exact ⟨h.1, h.2 3⟩

/-- C10: the two zero-substituted word indices are
`(k + crcFieldOffset) / 4` and its successor, computed from the
candidate's stride offset `k`, while the words actually read are at the
absolute storage offsets `i * 4` for `i < image_size / 4` — every read
request lies inside the region's `image_size`-byte prefix, and the
recomputed checksum depends only on that prefix (and the fault pattern
over it), not on the bytes starting at the candidate. -/
theorem c10_checksum_reads_region_start {α : Type} (C : Checksum α)
    (b : Backend) (k image_size : Nat) :
    ((k + crcFieldOffset) / 4 = (k + 12) / 4) ∧
    (∀ i, i < image_size / 4 → i ≠ (k + crcFieldOffset) / 4 →
       i ≠ (k + crcFieldOffset) / 4 + 1 →
       (i * 4, 4) ∈ crcReadRequests k image_size) ∧
    (∀ r ∈ crcReadRequests k image_size, r.2 = 4 ∧ r.1 + r.2 ≤ image_size) ∧
    (∀ b' : Backend, image_size ≤ b.data.length →
       image_size ≤ b'.data.length →
       b.data.take image_size = b'.data.take image_size →
       (∀ o, o + 4 ≤ image_size → b.fails o 4 = b'.fails o 4) →
       computeImageCrc C b k image_size = computeImageCrc C b' k image_size) := by
  refine ⟨rfl, ?_, ?_, ?_⟩
  · intro i hi h1 h2
    simp only [crcReadRequests, List.mem_filterMap, List.mem_range]
    exact ⟨i, hi, by rw [if_pos ⟨h1, h2⟩]⟩
  · intro r hr
    exact crcReadRequests_mem hr
  · intro b' hl hl' ht hf
    exact computeImageCrc_prefix_only C k image_size hl hl' ht hf

/-- Witness for C10: the checksum over the example region is unchanged when
the bytes beyond the 32-byte image prefix are replaced by junk, although
the region (and hence any candidate located past the prefix) differs. -/
theorem c10_checksum_reads_region_start_witness :
    computeImageCrc CsumNat exampleGood 0 32
      = computeImageCrc CsumNat
          ⟨exampleData ++ [7, 7, 7, 7], fun _ _ => false⟩ 0 32 :=
  (c10_checksum_reads_region_start CsumNat exampleGood 0 32).2.2.2
    ⟨exampleData ++ [7, 7, 7, 7], fun _ _ => false⟩
    (by decide) (by decide) (by decide) (fun o ho => rfl)

/-- C7: the scan issues read requests only at offsets within the declared
capacity and consumes successful reads only from within it; a short
read of the 8-byte signature window or of the full descriptor stops the
scan as not-found, while a structurally invalid or checksum-mismatching
candidate merely advances the scan to the next stride; a scan in which
no stride ever verifies a descriptor reports not-found, and the result
is independent of the stride budget once the budget covers the region,
so the loop always terminates within `locateFuel` strides. -/
theorem c7_locate_terminates_within_bounds {α : Type} (C : Checksum α)
    (b : Backend) :
    (∀ r ∈ (locateGo C b (locateFuel b) 0).2, r.1 ≤ b.data.length) ∧
    (∀ r ∈ (locateGo C b (locateFuel b) 0).2, ∀ l,
       b.read r.1 r.2 = some l → r.1 + r.2 ≤ b.data.length) ∧
    (∀ off, b.read off 8 = none → (strideCheckT C b off).1 = .stop) ∧
    (∀ off, b.read off 8 = some signatureValue →
       b.read off descriptorSize = none →
       (strideCheckT C b off).1 = .stop) ∧
    (∀ off, (strideCheckT C b off).1 = .stop →
       ∀ fuel, (locateGo C b (fuel + 1) off).1 = none) ∧
    (∀ off, (strideCheckT C b off).1 = .next →
       ∀ fuel, (locateGo C b (fuel + 1) off).1
         = (locateGo C b fuel (off + 8)).1) ∧
    ((∀ m, m < b.data.length →
        ((strideCheckT C b (8 * m)).1).isFound = false) →
      (locateAppDescriptor C b).2 = false) ∧
    (∀ fuel, b.data.length < 8 * fuel →
       (locateGo C b fuel 0).1 = (locateGo C b (locateFuel b) 0).1) ∧
    (∀ off raw, b.read off 8 = some signatureValue →
       b.read off descriptorSize = some raw →
       (parseDescriptor raw).isValid b.data.length = false →
       (strideCheckT C b off).1 = .next) ∧
    (∀ off raw, b.read off 8 = some signatureValue →
       b.read off descriptorSize = some raw →
       (parseDescriptor raw).isValid b.data.length = true →
       computeImageCrc C b off (parseDescriptor raw).app_info.image_size
         ≠ (parseDescriptor raw).app_info.image_crc →
       (strideCheckT C b off).1 = .next) := by
  refine ⟨?_, ?_, ?_, ?_, ?_, ?_, ?_, ?_, ?_, ?_⟩
  · exact locateGo_reads_bounded (locateFuel b) 0 (Nat.zero_le _)
  · intro r _ l hl
    exact read_bound hl
  · intro off h8
    exact strideCheckT_stop_of_sig_short h8
  · intro off h8 hd
    exact strideCheckT_stop_of_desc_short h8 hd
  · intro off h fuel
    exact locateGo_succ_stop h fuel
  · intro off h fuel
    exact locateGo_succ_next h fuel
  · intro h
    exact locate_not_found_of_no_accept h
  · intro fuel hfuel
    apply locateGo_congr_fuel fuel (locateFuel b) 0 (by omega)
    have : 8 * (b.data.length / 8 + 1) = 8 * (b.data.length / 8) + 8 := by
      omega
    unfold locateFuel
    omega
  · intro off raw hsig hraw hval
    exact strideCheckT_fst_next_of_invalid hsig hraw hval
  · intro off raw hsig hraw hval hcrc
    exact strideCheckT_fst_next_of_crc_mismatch hsig hraw hval hcrc

/-- Witness for C7: on an empty region the very first signature read is
short, so the scan stops and reports not-found; and the example region
with the wrong stored checksum is scanned to exhaustion as not-found. -/
theorem c7_locate_terminates_within_bounds_witness :
    (strideCheckT CsumNat ⟨[], fun _ _ => false⟩ 0).1 = .stop ∧
    (locateAppDescriptor CsumNat exampleBadCrc).2 = false :=
  ⟨(c7_locate_terminates_within_bounds CsumNat
      ⟨[], fun _ _ => false⟩).2.2.1 0 (by decide),
   (c7_locate_terminates_within_bounds CsumNat exampleBadCrc).2.2.2.2.2.2.1
     (by decide)⟩

/-- C2 counterexample: flipping bit 0 of byte 12 — a byte of the two
checksum-holding words of the sole valid candidate at offset 0 of the
example region — makes `locate` reject the whole region, refuting the
claim that flips confined to the checksum-holding words do not affect
validity. -/
theorem c2_counterexample :
    (locateAppDescriptor CsumNat exampleGood).2 = true ∧
    (locateAppDescriptor CsumNat (flipBackend exampleGood 12 0)).2
      = false := by
  exact ⟨by decide, by decide⟩

/-- C2 (amended): for any checksum primitive, a region whose stride `k`
holds a verified candidate and whose bit-flipped content matches the
signature at no other stride: flipping a single bit within the two
checksum-holding words leaves the recomputed checksum unchanged but
changes the stored `image_checksum`, so the candidate is rejected and
`locate` reports not-found (the claim said validity would be
unaffected — it is the opposite); flipping a bit outside those words
also yields not-found provided the checksum primitive maps the altered
word sequence to a value different from the altered stored checksum
(single-bit detection is a property of the external CRC-64/WE
primitive, which the spec leaves out of scope). -/
theorem c2_bitflip_rejection {α : Type} (C : Checksum α) (b : Backend)
    (k p j : Nat) (hk : k % 8 = 0)
    (hsig : b.read k 8 = some signatureValue)
    (hraw : b.read k descriptorSize = some (sliceL b.data k descriptorSize))
    (hval : (parseDescriptor (sliceL b.data k descriptorSize)).isValid
      b.data.length = true)
    (hcrc : computeImageCrc C b k
        (parseDescriptor (sliceL b.data k descriptorSize)).app_info.image_size
      = (parseDescriptor (sliceL b.data k descriptorSize)).app_info.image_crc)
    (hnoother : ∀ m, m < b.data.length → 8 * m ≠ k →
      (flipBackend b p j).read (8 * m) 8 ≠ some signatureValue) :
    (k + 12 ≤ p → p < k + 20 →
       (strideCheckT C (flipBackend b p j) k).1 = .next ∧
       (locateAppDescriptor C (flipBackend b p j)).2 = false) ∧
    ((p < k + 12 ∨ k + 20 ≤ p) →
       ((parseDescriptor (sliceL (flipBackend b p j).data k
            descriptorSize)).isValid (flipBackend b p j).data.length
          = true →
         computeImageCrc C (flipBackend b p j) k
             (parseDescriptor (sliceL (flipBackend b p j).data k
               descriptorSize)).app_info.image_size
           ≠ (parseDescriptor (sliceL (flipBackend b p j).data k
               descriptorSize)).app_info.image_crc) →
       (locateAppDescriptor C (flipBackend b p j)).2 = false) := by
  have hds : descriptorSize = 26 := rfl
  have hlen' : (flipBackend b p j).data.length = b.data.length := by
    simp [flipBackend]
  constructor
  · intro hp1 hp2
    have hbnd := read_bound hraw
    rw [hds] at hbnd
    have hfails26 := read_fails_false hraw
    have hraweq := read_length hraw
    have hsig' : (flipBackend b p j).read k 8 = some signatureValue := by
      rw [flip_read_outside j (Or.inr (by omega))]
      exact hsig
    have hraw' : (flipBackend b p j).read k descriptorSize
        = some ((sliceL b.data k descriptorSize).set (p - k)
            ((b.data.getD p 0) ^^^ (1 <<< j))) := by
      exact flip_read_inside j hfails26 (by omega) (by omega) (by omega)
    have hparse := @parseDescriptor_set_crcField
      (sliceL b.data k descriptorSize) (p - k)
      ((b.data.getD p 0) ^^^ (1 <<< j)) (by omega) (by omega)
    have hsigeq : (parseDescriptor ((sliceL b.data k descriptorSize).set
          (p - k) ((b.data.getD p 0) ^^^ (1 <<< j)))).signature
        = (parseDescriptor (sliceL b.data k descriptorSize)).signature := by
      rw [hparse]
      rfl
    have hsizeeq : (parseDescriptor ((sliceL b.data k descriptorSize).set
          (p - k) ((b.data.getD p 0) ^^^ (1 <<< j)))).app_info.image_size
        = (parseDescriptor
            (sliceL b.data k descriptorSize)).app_info.image_size := by
      rw [hparse]
      rfl
    have hval' : (parseDescriptor ((sliceL b.data k descriptorSize).set
          (p - k) ((b.data.getD p 0) ^^^ (1 <<< j)))).isValid
        (flipBackend b p j).data.length = true := by
      rw [hlen', isValid_congr hsigeq hsizeeq]
      exact hval
    have hcrceq : computeImageCrc C b k
          (parseDescriptor (sliceL b.data k descriptorSize)).app_info.image_size
        = computeImageCrc C (flipBackend b p j) k
          (parseDescriptor
            (sliceL b.data k descriptorSize)).app_info.image_size := by
      apply computeImageCrc_congr_reads
      intro i hi h1 h2
      have hcf : (k + crcFieldOffset) / 4 = (k + 12) / 4 := rfl
      rw [hcf] at h1 h2
      have hside : p < i * 4 ∨ i * 4 + 4 ≤ p := by omega
      rw [flip_read_outside j hside]
    have hslice8 : (sliceL (sliceL b.data k descriptorSize) 12 8).length
        = 8 := by
      simp only [sliceL, List.length_take, List.length_drop, hds]
      omega
    have hbyte : (sliceL (sliceL b.data k descriptorSize) 12 8).getD
          (p - k - 12) 0 = b.data.getD p 0 := by
      rw [sliceL_getD (by omega)]
      have h1 : 12 + (p - k - 12) = p - k := by omega
      rw [h1, sliceL_getD (by omega)]
      have h2 : k + (p - k) = p := by omega
      rw [h2]
    have hvne : (b.data.getD p 0) ^^^ (1 <<< j)
        ≠ (sliceL (sliceL b.data k descriptorSize) 12 8).getD
            (p - k - 12) 0 := by
      rw [hbyte]
      exact xor_shiftLeft_ne _ j
    have hstored : parseLE ((sliceL (sliceL b.data k descriptorSize) 12
            8).set (p - k - 12) ((b.data.getD p 0) ^^^ (1 <<< j)))
        ≠ parseLE (sliceL (sliceL b.data k descriptorSize) 12 8) :=
      parseLE_set_ne (by rw [hslice8]; omega) hvne
    have hcrc' : computeImageCrc C (flipBackend b p j) k
          (parseDescriptor ((sliceL b.data k descriptorSize).set (p - k)
            ((b.data.getD p 0) ^^^ (1 <<< j)))).app_info.image_size
        ≠ (parseDescriptor ((sliceL b.data k descriptorSize).set (p - k)
            ((b.data.getD p 0) ^^^ (1 <<< j)))).app_info.image_crc := by
      rw [hsizeeq, ← hcrceq, hcrc, hparse]
      intro h
      exact hstored h.symm
    have hnext := strideCheckT_fst_next_of_crc_mismatch hsig' hraw'
      hval' hcrc'
    refine ⟨hnext, ?_⟩
    apply locate_not_found_of_no_accept
    intro m hm
    by_cases hmk : 8 * m = k
    · rw [hmk, hnext]
      rfl
    · apply strideCheckT_isFound_false_of_sig
      rw [hlen'] at hm
      exact hnoother m hm hmk
  · intro _ hsep
    apply locate_not_found_of_no_accept
    intro m hm
    by_cases hmk : 8 * m = k
    · rw [hmk]
      apply strideCheckT_isFound_false_of_no_match
      intro raw' hr' hv'
      have hre := read_eq_slice hr'
      subst hre
      exact hsep hv'
    · apply strideCheckT_isFound_false_of_sig
      rw [hlen'] at hm
      exact hnoother m hm hmk

/-- Witness for the amended C2: at the concrete example region, flipping
bit 0 of byte 12 (inside the checksum field) and flipping bit 0 of
byte 20 (the version byte, outside it) both make `locate` report
not-found. -/
theorem c2_bitflip_rejection_witness :
    ((strideCheckT CsumNat (flipBackend exampleGood 12 0) 0).1 = .next ∧
     (locateAppDescriptor CsumNat (flipBackend exampleGood 12 0)).2
       = false) ∧
    (locateAppDescriptor CsumNat (flipBackend exampleGood 20 0)).2
      = false := by
  constructor
  · exact (c2_bitflip_rejection CsumNat exampleGood 0 12 0 (by decide)
      (by decide) (by decide) (by decide) (by decide) (by decide)).1
      (by decide) (by decide)
  · exact (c2_bitflip_rejection CsumNat exampleGood 0 20 0 (by decide)
      (by decide) (by decide) (by decide) (by decide) (by decide)).2
      (Or.inr (by decide)) (by decide)

end Bootloader
